import Mathlib

/-!
Verification development for the trends_analysis backend.

The Python sources under app/ are shallowly embedded as Lean definitions:
the database is a list of stored rows, SQLAlchemy sessions become explicit
state passing, exceptions become an error sum type, and the small pieces of
the Python standard library that the code leans on (re.findall for the two
hashtag regexes, collections.Counter, sorted, datetime.fromisoformat,
str.strip and str.lower) are modelled directly.  ASCII character classes
stand in for their Unicode counterparts; no claim depends on non-ASCII
input.
-/

namespace Trends

/-- Characters matched by the regex word class in the two hashtag patterns
(ASCII fragment: letters, digits and the underscore). -/
def wordChar (c : Char) : Bool := c.isAlpha || c.isDigit || c == '_'

/-- One left-to-right pass of re.findall for the pattern "hash sign followed
by one or more word characters": at a hash sign whose successor is a word
character, the maximal word-character run is one match and scanning resumes
after it; otherwise scanning advances one character.  The fuel argument only
bounds the recursion (each step consumes at least one character), so fuel =
length of the input gives the full scan. -/
def findTagRunsAux : Nat → List Char → List (List Char)
  | 0, _ => []
  | _, [] => []
  | fuel+1, c :: rest =>
    if c = '#' then
      match rest.takeWhile wordChar with
      | [] => findTagRunsAux fuel rest
      | run => run :: findTagRunsAux fuel (rest.dropWhile wordChar)
    else findTagRunsAux fuel rest

/-- The word-character runs of all regex matches, in text order. -/
def findTagRuns (cs : List Char) : List (List Char) := findTagRunsAux cs.length cs

/-- All matches of AnalyticsService.HASHTAG_PATTERN in one text, as returned
by re.findall: the full match, including the leading hash sign. -/
def serviceTags (text : String) : List String :=
  (findTagRuns text.data).map (fun r => String.mk ('#' :: r))

/-- str.lower, restricted to ASCII letters. -/
def lowerStr (s : String) : String := String.mk (s.data.map Char.toLower)

/-- Counter update for a single key: the first matching entry is incremented
in place; an unseen key is appended at the end (dict insertion order). -/
def bump (acc : List (String × Nat)) (k : String) : List (String × Nat) :=
  match acc with
  | [] => [(k, 1)]
  | (j, n) :: rest => if j = k then (j, n + 1) :: rest else (j, n) :: bump rest k

/-- collections.Counter over a stream of keys, keys kept in first-encountered
order. -/
def counterOf (ks : List String) : List (String × Nat) := ks.foldl bump []

/-- Stable insertion into a list sorted by count descending: the inserted
element goes in front of every entry of equal or smaller count (it is the
earlier one in the unsorted input). -/
def insertByCount (x : String × Nat) : List (String × Nat) → List (String × Nat)
  | [] => [x]
  | y :: ys => if y.2 ≤ x.2 then x :: y :: ys else y :: insertByCount x ys

/-- Stable sort by count descending, the order produced by Python sorted with
key = count and reverse set, hence by Counter.most_common. -/
def sortByCountDesc : List (String × Nat) → List (String × Nat)
  | [] => []
  | x :: xs => insertByCount x (sortByCountDesc xs)

/-- Counter.most_common n: the n largest counts, ties kept in
first-encountered order. -/
def mostCommon (n : Nat) (c : List (String × Nat)) : List (String × Nat) :=
  (sortByCountDesc c).take n

/-- First-occurrence deduplication of a key stream: the key order of the
Counter dictionary. -/
def firstOccs : List String → List String
  | [] => []
  | k :: ks => k :: (firstOccs ks).filter (fun j => j ≠ k)

/-- A Python datetime value: calendar and clock fields plus an optional
fixed UTC offset in minutes (a datetime.timezone).  Range validity (month in
1..12 and so on) is enforced where Python enforces it: in the
fromisoformat model below. -/
structure PDateTime where
  year : Nat
  month : Nat
  day : Nat
  hour : Nat
  minute : Nat
  second : Nat
  microsecond : Nat
  tzOffsetMinutes : Option Int
deriving Repr, DecidableEq

/-- The decimal digit character for d modulo 10. -/
def digitCh (d : Nat) : Char := Char.ofNat (48 + d % 10)

/-- Two-digit zero-padded decimal rendering (strftime with a two-digit
field, for in-range values below 100). -/
def pad2 (n : Nat) : String := String.mk [digitCh (n / 10), digitCh n]

/-- Four-digit zero-padded decimal rendering (strftime year field, for
values below 10000). -/
def pad4 (n : Nat) : String :=
  String.mk [digitCh (n / 1000), digitCh (n / 100), digitCh (n / 10), digitCh n]

/-- strftime with the hour-granularity format: zero-padded year, month and
day separated by dashes, then the letter T and the zero-padded hour. -/
def strftimeHour (d : PDateTime) : String :=
  pad4 d.year ++ "-" ++ pad2 d.month ++ "-" ++ pad2 d.day ++ "T" ++ pad2 d.hour

/-- A non-null value of the created_at column as the volume report sees it:
a string, a datetime, or some other Python object (the defensive branches of
the source).  The column type is DateTime, so in practice only the datetime
form occurs; the string and other forms model the code's own case split. -/
inductive DBVal where
  | str : String → DBVal
  | dt : PDateTime → DBVal
  | other : DBVal
deriving Repr, DecidableEq

/-- Python truthiness of a non-null created_at value: the empty string is
falsy, every datetime is truthy; the opaque other form is modelled as
truthy (falsy non-string non-datetime values are not modelled). -/
def pyTruthy : DBVal → Bool
  | .str s => !s.isEmpty
  | .dt _ => true
  | .other => true

/-- The bucketing key the volume report computes for one truthy value: a
string keeps its first 13 characters when it has at least 13, a datetime is
formatted at hour granularity, anything else falls to the literal unknown
key. -/
def hourKeyOf : DBVal → String
  | .str s => if 13 ≤ s.length then s.take 13 else "unknown"
  | .dt d => strftimeHour d
  | .other => "unknown"

/-- Python tuple comparison on (string, count) pairs, as used by sorted. -/
def pairLe (x y : String × Nat) : Prop := x.1 < y.1 ∨ (x.1 = y.1 ∧ x.2 ≤ y.2)

instance (x y : String × Nat) : Decidable (pairLe x y) := by
  unfold pairLe
  infer_instance

/-- Stable ascending insertion for Python sorted over pairs. -/
def insertByKey (x : String × Nat) : List (String × Nat) → List (String × Nat)
  | [] => [x]
  | y :: ys => if pairLe x y then x :: y :: ys else y :: insertByKey x ys

/-- Python sorted over Counter items (ascending lexicographic on pairs). -/
def sortByKey : List (String × Nat) → List (String × Nat)
  | [] => []
  | x :: xs => insertByKey x (sortByKey xs)

namespace AnalyticsService

/-- AnalyticsService.get_top_hashtags.  The argument texts is the projection
of the text column over all stored rows (the column is non-nullable, so the
SQL filter on null text keeps every row).  Matches are extracted per row,
lowercased, counted with a Counter, and the limit most common are returned. -/
def get_top_hashtags (limit : Nat) (texts : List String) : List (String × Nat) :=
  if texts.isEmpty then []
  else
    let counter := texts.foldl (fun acc t => ((serviceTags t).map lowerStr).foldl bump acc) []
    mostCommon limit counter

/-- AnalyticsService.get_volume_by_hour.  The argument rows is the
projection of the created_at column over all stored rows; the SQL filter
drops the null entries, the loop skips falsy values, buckets each remaining
value by hourKeyOf into a Counter, and the items are returned sorted by
key.  (The per-item exception handler in the source is unreachable for the
modelled value forms: slicing and strftime do not raise.) -/
def get_volume_by_hour (rows : List (Option DBVal)) : List (String × Nat) :=
  let vals := rows.filterMap id
  if vals.isEmpty then []
  else
    let counter := vals.foldl
      (fun acc v => if pyTruthy v then bump acc (hourKeyOf v) else acc) []
    sortByKey counter

end AnalyticsService

namespace analyse_hashtag

/-- analyse_hashtag.extract_hashtags: re.findall with the capturing group
pattern, so each extracted token is the word-character run without the
leading hash sign, original case kept, concatenated over all input strings. -/
def extract_hashtags (tweets : List String) : List String :=
  tweets.foldl (fun acc t => acc ++ (findTagRuns t.data).map (fun r => String.mk r)) []

/-- analyse_hashtag.top_hashtags: Counter over the raw extracted tokens,
then most_common n.  The Python default for n is 10. -/
def top_hashtags (tweets : List String) (n : Nat) : List (String × Nat) :=
  mostCommon n (counterOf (extract_hashtags tweets))

end analyse_hashtag

namespace routes

/-- GET /tweets/top-hashtags: passes the query-supplied list of strings to
the standalone utility with its default n = 10. -/
def get_top_hashtags_route (tweets : List String) : List (String × Nat) :=
  analyse_hashtag.top_hashtags tweets 10

end routes

/-- The full lowercased hashtag stream the service counts over. -/
def allLowerTags (texts : List String) : List String :=
  texts.flatMap (fun t => (serviceTags t).map lowerStr)

/-- Modelled from the spec sentence "each count equal to the number of stored
records whose text contains that hashtag (case-insensitive)": the number of
stored texts in which the lowercased hashtag occurs at least once.  This is
the reference the claim is compared against, not the code. -/
def spec_recordsContainingHashtag (tag : String) (texts : List String) : Nat :=
  (texts.filter (fun t => ((serviceTags t).map lowerStr).contains tag)).length

/-- The count the report body carries for one key: the sum of the counts of
the entries with that key (there is at most one such entry). -/
def reportCount (key : String) (r : List (String × Nat)) : Nat :=
  ((r.filter (fun p => p.1 == key)).map Prod.snd).sum

/-! ### The datetime.fromisoformat model (Python 3.10 grammar) -/

/-- The decimal value of a digit character. -/
def digitVal (c : Char) : Option Nat :=
  if c.isDigit then some (c.toNat - 48) else none

/-- Read exactly two digit characters. -/
def read2 : List Char → Option (Nat × List Char)
  | a :: b :: rest => do
    let x ← digitVal a
    let y ← digitVal b
    pure (x * 10 + y, rest)
  | _ => none

/-- Read exactly four digit characters. -/
def read4 : List Char → Option (Nat × List Char)
  | a :: b :: c :: d :: rest => do
    let x ← digitVal a
    let y ← digitVal b
    let z ← digitVal c
    let w ← digitVal d
    pure (x * 1000 + y * 100 + z * 10 + w, rest)
  | _ => none

/-- Consume one expected character. -/
def expectCh (c : Char) : List Char → Option (List Char)
  | d :: rest => if d = c then some rest else none
  | [] => none

def isLeapYear (y : Nat) : Bool := (y % 4 == 0 && y % 100 != 0) || (y % 400 == 0)

def daysInMonth (y m : Nat) : Nat :=
  if m = 2 then (if isLeapYear y then 29 else 28)
  else if m = 4 ∨ m = 6 ∨ m = 9 ∨ m = 11 then 30
  else 31

/-- A signed HH:MM timezone suffix filling the rest of the input, or an
empty rest (no offset).  Python also accepts seconds-precision offsets;
those are not modelled.  datetime.timezone requires the offset to be
strictly less than one day. -/
def parseTzEnd : List Char → Option (Option Int)
  | [] => some none
  | c :: rest =>
    if c = '+' || c = '-' then
      match read2 rest with
      | some (th, ':' :: rest2) =>
        match read2 rest2 with
        | some (tm, []) =>
          let total := th * 60 + tm
          if total < 1440 then
            some (some (if c = '+' then (total : Int) else -(total : Int)))
          else none
        | _ => none
      | _ => none
    else none

def digitsToNat (ds : List Char) : Nat :=
  ds.foldl (fun a c => a * 10 + (c.toNat - 48)) 0

/-- After the seconds: optionally a dot followed by exactly three or six
fraction digits, then the timezone suffix or the end of the input.  Returns
microseconds and the offset. -/
def parseFracTz : List Char → Option (Nat × Option Int)
  | [] => do
    let tz ← parseTzEnd []
    pure (0, tz)
  | c :: rest =>
    if c = '.' then
      let ds := rest.takeWhile Char.isDigit
      let rest2 := rest.dropWhile Char.isDigit
      if ds.length = 3 then do
        let tz ← parseTzEnd rest2
        pure (digitsToNat ds * 1000, tz)
      else if ds.length = 6 then do
        let tz ← parseTzEnd rest2
        pure (digitsToNat ds, tz)
      else none
    else do
      let tz ← parseTzEnd (c :: rest)
      pure (0, tz)

/-- The time-of-day part after the separator: HH, HH:MM or HH:MM:SS with an
optional fraction after the seconds, then an optional timezone suffix. -/
def parseTimePart (cs : List Char) : Option (Nat × Nat × Nat × Nat × Option Int) :=
  match read2 cs with
  | none => none
  | some (hh, rest) =>
    match rest with
    | ':' :: rest2 =>
      match read2 rest2 with
      | none => none
      | some (mm, rest3) =>
        match rest3 with
        | ':' :: rest4 =>
          match read2 rest4 with
          | none => none
          | some (ss, rest5) =>
            match parseFracTz rest5 with
            | none => none
            | some (us, tz) => some (hh, mm, ss, us, tz)
        | _ =>
          match parseTzEnd rest3 with
          | none => none
          | some tz => some (hh, mm, 0, 0, tz)
    | _ =>
      match parseTzEnd rest with
      | none => none
      | some tz => some (hh, 0, 0, 0, tz)

/-- datetime.fromisoformat over the character list (the grammar Python
accepts up to 3.10): a ten character date YYYY-MM-DD, then optionally one
separator character (any character) and a time part; calendar and clock
ranges are checked as the datetime constructor checks them.  none stands
for a ValueError. -/
def fromisoChars (cs : List Char) : Option PDateTime :=
  match read4 cs with
  | none => none
  | some (yr, rest) =>
    match expectCh '-' rest with
    | none => none
    | some rest1 =>
      match read2 rest1 with
      | none => none
      | some (mo, rest2) =>
        match expectCh '-' rest2 with
        | none => none
        | some rest3 =>
          match read2 rest3 with
          | none => none
          | some (dy, rest4) =>
            match (match rest4 with
                   | [] => some (0, 0, 0, 0, (none : Option Int))
                   | _sep :: tcs => parseTimePart tcs) with
            | none => none
            | some (hh, mm, ss, us, tz) =>
              if 1 ≤ yr ∧ yr ≤ 9999 ∧ 1 ≤ mo ∧ mo ≤ 12 ∧ 1 ≤ dy ∧
                  dy ≤ daysInMonth yr mo ∧ hh ≤ 23 ∧ mm ≤ 59 ∧ ss ≤ 59 then
                some ⟨yr, mo, dy, hh, mm, ss, us, tz⟩
              else none

def fromisoformat (s : String) : Option PDateTime := fromisoChars s.data

/-- str.replace of the single character Z by the six characters of the
zero offset (applied to every occurrence, as str.replace does). -/
def replaceZ (cs : List Char) : List Char :=
  cs.flatMap (fun c => if c = 'Z' then ['+', '0', '0', ':', '0', '0'] else [c])

/-- The ISO rendering YYYY-MM-DDTHH:MM:SS, zero padded, used to state which
timestamp shapes the ingestion parser accepts. -/
def isoFmt (y mo dy h mi s : Nat) : String :=
  pad4 y ++ "-" ++ pad2 mo ++ "-" ++ pad2 dy ++ "T" ++ pad2 h ++ ":" ++ pad2 mi
    ++ ":" ++ pad2 s

/-! ### The tweet service and the upstream client -/

/-- The application's exception taxonomy: ValueError for bad input,
TwitterAPIError for the upstream, DatabaseError for storage and
ConfigurationError for a missing credential. -/
inductive AppError where
  | badInput : String → AppError
  | upstream : String → AppError
  | storage : String → AppError
  | config : String → AppError
deriving Repr, DecidableEq

def AppError.msg : AppError → String
  | .badInput m => m
  | .upstream m => m
  | .storage m => m
  | .config m => m

/-- An upstream record as the service reads it: dict.get of the four used
fields.  Values are taken as strings (the source applies str to the id; a
non-string id is modelled by its string rendering, a falsy one by a blank
rendering). -/
structure TweetData where
  id : Option String
  author_id : Option String
  text : Option String
  created_at : Option String
deriving Repr, DecidableEq

/-- A persisted row of the tweets table.  The store-assigned surrogate id,
collected_at and raw_json columns are omitted: no claim mentions them. -/
structure StoredTweet where
  tweet_id : String
  author_id : Option String
  text : String
  created_at : Option PDateTime
deriving Repr, DecidableEq

namespace TwitterClient

/-- Python truthiness of the configured bearer token. -/
def tokenSet : Option String → Bool
  | none => false
  | some s => !s.isEmpty

/-- The constructed client: its authorization material. -/
structure Client where
  bearer : String
deriving Repr, DecidableEq

/-- TwitterClient.__init__: a falsy bearer token is a fatal
ConfigurationError raised at construction time. -/
def init (bearerToken : Option String) : Except AppError Client :=
  if tokenSet bearerToken then .ok { bearer := bearerToken.getD "" }
  else .error (.config "BEARER_TOKEN environment variable is required")

/-- The module-level singleton: the client is constructed only when the
token is truthy, otherwise the global is None. -/
def globalClient (bearerToken : Option String) : Option Client :=
  if tokenSet bearerToken then
    match init bearerToken with
    | .ok c => some c
    | .error _ => none
  else none

/-- The query parameters search_recent sends. -/
structure SearchParams where
  query : String
  max_results : Int
  tweet_fields : String
deriving Repr, DecidableEq

/-- The parameter dictionary built by search_recent: max_results is clamped
into [10, 100] before the request goes out; no input is rejected. -/
def searchRecentParams (query : String) (maxResults : Int) : SearchParams :=
  { query := query
    max_results := max 10 (min 100 maxResults)
    tweet_fields := "created_at,author_id,text,id" }

end TwitterClient

namespace TweetService

/-- TweetService._parse_tweet_date: None and the falsy empty string yield
none; a string whose last character is Z has every Z replaced by the zero
offset; a string containing a plus sign is parsed as is; anything else gets
the zero offset appended; then datetime.fromisoformat, whose ValueError is
caught and becomes none. -/
def parse_tweet_date : Option String → Option PDateTime
  | none => none
  | some s =>
    if s.data = [] then none
    else if s.data.getLast? = some 'Z' then fromisoChars (replaceZ s.data)
    else if s.data.contains '+' then fromisoChars s.data
    else fromisoChars (s.data ++ ['+', '0', '0', ':', '0', '0'])

/-- The id check of _save_tweet_if_new: a missing id, a falsy id or an id
that strips to the empty string is unusable; otherwise the (unstripped)
string is the natural key. -/
def usableId (t : TweetData) : Option String :=
  match t.id with
  | none => none
  | some s => if s.data.all Char.isWhitespace then none else some s

/-- The row constructed for a new tweet with usable id s. -/
def mkStoredTweet (t : TweetData) (s : String) : StoredTweet :=
  { tweet_id := s
    author_id := t.author_id
    text := t.text.getD ""
    created_at := parse_tweet_date t.created_at }

/-- TweetService._save_tweet_if_new over an explicit store: skip on a
missing id, skip when a row with the same tweet_id already exists, else
insert the new row at the end and return it.  The IntegrityError handler (a
losing race on the uniqueness constraint) cannot fire in this sequential
model because the existence check is decisive; it would likewise skip and
leave the store unchanged, as would the handler for any other per-record
database failure. -/
def save_tweet_if_new (t : TweetData) (db : List StoredTweet) :
    Option StoredTweet × List StoredTweet :=
  match usableId t with
  | none => (none, db)
  | some s =>
    if db.any (fun r => r.tweet_id == s) then (none, db)
    else (some (mkStoredTweet t s), db ++ [mkStoredTweet t s])

/-- The per-record loop of collect_tweets: records are saved strictly in
order, a skipped or failed record contributes nothing, and the loop always
reaches the end of the batch (per-record exceptions are caught and counted,
never propagated). -/
def processBatch (records : List TweetData) (db : List StoredTweet) :
    List StoredTweet × List StoredTweet :=
  match records with
  | [] => ([], db)
  | r :: rs =>
    let step := save_tweet_if_new r db
    let rest := processBatch rs step.2
    (match step.1 with
     | some t => t :: rest.1
     | none => rest.1, rest.2)

/-- The store after a sequence of ingestion batches. -/
def processBatches (batches : List (List TweetData)) (db : List StoredTweet) :
    List StoredTweet :=
  batches.foldl (fun acc b => (processBatch b acc).2) db

/-- TweetService.collect_tweets.  The upstream interaction is abstracted by
fetchResult: the outcome of twitter_client.search_recent, whose own failures
are always of the upstream kind.  The returned pair is the outcome visible
to the caller and the store after the call. -/
def collect_tweets (query : String) (maxResults : Int)
    (client : Option TwitterClient.Client)
    (fetchResult : Except AppError (List TweetData))
    (db : List StoredTweet) :
    Except AppError (List StoredTweet) × List StoredTweet :=
  if query.data.all Char.isWhitespace then
    (.error (.badInput "Query cannot be empty or whitespace-only."), db)
  else if maxResults ≤ 0 then
    (.error (.badInput "max_results must be greater than 0."), db)
  else if client.isNone then
    (.error (.upstream "Twitter client not configured. Check BEARER_TOKEN."), db)
  else
    match fetchResult with
    | .error (.upstream m) => (.error (.upstream m), db)
    | .error e => (.error (.storage ("Tweet collection failed: " ++ e.msg)), db)
    | .ok data =>
      if data.isEmpty then (.ok [], db)
      else
        let res := processBatch data db
        (.ok res.1, res.2)

end TweetService

namespace routes

/-- POST /tweets/collect exception mapping: a TwitterAPIError becomes the
bad-gateway status 502, a DatabaseError the internal status 500, and any
other exception the generic internal status 500. -/
def collectStatusOf : AppError → Nat
  | .upstream _ => 502
  | .storage _ => 500
  | _ => 500

end routes

/-- Sample upstream record, first of a duplicate pair. -/
def exA : TweetData :=
  { id := some "42", author_id := none, text := some "a", created_at := none }

/-- Sample upstream record, second of a duplicate pair (same id as exA,
different text). -/
def exB : TweetData :=
  { id := some "42", author_id := none, text := some "b", created_at := none }

/-- Sample upstream record with a fresh id. -/
def exT : TweetData :=
  { id := some "7", author_id := none, text := some "x", created_at := none }

/-- Sample upstream record with no identifier. -/
def exBad : TweetData :=
  { id := none, author_id := none, text := some "y", created_at := none }

/-- Sample upstream record with an unparsable timestamp. -/
def exDate : TweetData :=
  { id := some "9", author_id := none, text := some "z",
    created_at := some "not-a-date" }

/-- Sample stored row with tweet_id 7. -/
def exRow : StoredTweet :=
  { tweet_id := "7", author_id := none, text := "x", created_at := none }

/-! ### Counter and most_common lemmas -/

theorem bump_map_not_mem (ds : List String) (g : String → Nat) (k : String)
    (h : k ∉ ds) :
    bump (ds.map (fun j => (j, g j))) k = ds.map (fun j => (j, g j)) ++ [(k, 1)] := by
  induction ds with
  | nil => rfl
  | cons a ds ih =>
    have hak : ¬ a = k := fun hc => h (hc ▸ List.mem_cons_self a ds)
    simp only [List.map_cons, bump, if_neg hak, List.cons_append]
    rw [ih (fun hc => h (List.mem_cons_of_mem a hc))]

theorem bump_map_mem (ds : List String) (g : String → Nat) (k : String)
    (hnd : ds.Nodup) (h : k ∈ ds) :
    bump (ds.map (fun j => (j, g j))) k
      = ds.map (fun j => (j, if j = k then g j + 1 else g j)) := by
  induction ds with
  | nil => cases h
  | cons a ds ih =>
    show (if a = k then (a, g a + 1) :: ds.map (fun j => (j, g j))
          else (a, g a) :: bump (ds.map (fun j => (j, g j))) k)
        = (a, if a = k then g a + 1 else g a)
            :: ds.map (fun j => (j, if j = k then g j + 1 else g j))
    by_cases hak : a = k
    · subst hak
      have hnotin : a ∉ ds := (List.nodup_cons.mp hnd).1
      rw [if_pos rfl, if_pos rfl]
      have htail : ds.map (fun j => (j, if j = a then g j + 1 else g j))
          = ds.map (fun j => (j, g j)) :=
        List.map_congr_left fun j hj => by
          have hja : ¬ j = a := fun hc => hnotin (hc ▸ hj)
          rw [if_neg hja]
      rw [htail]
    · have hk : k ∈ ds := by
        rcases List.mem_cons.mp h with h1 | h1
        · exact absurd h1.symm hak
        · exact h1
      rw [if_neg hak, if_neg hak, ih (List.nodup_cons.mp hnd).2 hk]

theorem mem_firstOccs {k : String} {l : List String} : k ∈ firstOccs l ↔ k ∈ l := by
  induction l with
  | nil => exact Iff.rfl
  | cons a l ih =>
    show k ∈ a :: (firstOccs l).filter (fun j => j ≠ a) ↔ k ∈ a :: l
    simp only [List.mem_cons, List.mem_filter, ih, Bool.not_eq_true',
      decide_eq_false_iff_not, decide_eq_true_eq]
    constructor
    · rintro (rfl | ⟨h1, _⟩)
      · exact Or.inl rfl
      · exact Or.inr h1
    · rintro (rfl | h1)
      · exact Or.inl rfl
      · by_cases hka : k = a
        · exact Or.inl hka
        · exact Or.inr ⟨h1, hka⟩

theorem nodup_firstOccs (l : List String) : (firstOccs l).Nodup := by
  induction l with
  | nil => exact List.nodup_nil
  | cons a l ih =>
    refine List.nodup_cons.mpr ⟨?_, ih.filter _⟩
    intro hmem
    have h2 := (List.mem_filter.mp hmem).2
    simp at h2

theorem firstOccs_append_singleton (pre : List String) (k : String) :
    firstOccs (pre ++ [k])
      = if k ∈ pre then firstOccs pre else firstOccs pre ++ [k] := by
  induction pre with
  | nil => simp [firstOccs]
  | cons a pre ih =>
    show a :: (firstOccs (pre ++ [k])).filter (fun j => j ≠ a)
        = if k ∈ a :: pre then a :: (firstOccs pre).filter (fun j => j ≠ a)
          else (a :: (firstOccs pre).filter (fun j => j ≠ a)) ++ [k]
    rw [ih]
    by_cases hk : k ∈ pre
    · rw [if_pos hk, if_pos (List.mem_cons_of_mem a hk)]
    · rw [if_neg hk, List.filter_append]
      by_cases hka : k = a
      · subst hka
        rw [if_pos (List.mem_cons_self k pre)]
        simp
      · rw [if_neg (by simp [hka, hk] : ¬ k ∈ a :: pre)]
        simp [hka]

theorem count_append_singleton (pre : List String) (j k : String) :
    (pre ++ [k]).count j = pre.count j + (if j = k then 1 else 0) := by
  rw [List.count_append]
  by_cases h : j = k
  · subst h; simp
  · simp [List.count_singleton', h, Ne.symm h]

theorem foldl_bump_eq (l pre : List String) :
    List.foldl bump ((firstOccs pre).map (fun k => (k, pre.count k))) l
      = (firstOccs (pre ++ l)).map (fun k => (k, (pre ++ l).count k)) := by
  induction l generalizing pre with
  | nil => simp
  | cons k ks ih =>
    have hstep : bump ((firstOccs pre).map (fun j => (j, pre.count j))) k
        = (firstOccs (pre ++ [k])).map (fun j => (j, (pre ++ [k]).count j)) := by
      by_cases hk : k ∈ pre
      · rw [bump_map_mem _ _ _ (nodup_firstOccs pre) (mem_firstOccs.mpr hk)]
        rw [firstOccs_append_singleton, if_pos hk]
        refine List.map_congr_left fun j hj => ?_
        rw [count_append_singleton]
        by_cases hjk : j = k <;> simp [hjk]
      · rw [bump_map_not_mem _ _ _ (fun hc => hk (mem_firstOccs.mp hc))]
        rw [firstOccs_append_singleton, if_neg hk]
        rw [List.map_append]
        congr 1
        · refine List.map_congr_left fun j hj => ?_
          have hjk : ¬ j = k := fun hc => hk (hc ▸ mem_firstOccs.mp hj)
          rw [count_append_singleton, if_neg hjk]
          simp
        · have h0 : pre.count k = 0 := List.count_eq_zero.mpr hk
          simp [count_append_singleton, h0]
    calc List.foldl bump ((firstOccs pre).map (fun k => (k, pre.count k))) (k :: ks)
        = List.foldl bump ((firstOccs (pre ++ [k])).map
            (fun j => (j, (pre ++ [k]).count j))) ks := by
          simp only [List.foldl_cons, hstep]
      _ = (firstOccs (pre ++ k :: ks)).map (fun j => (j, (pre ++ k :: ks).count j)) := by
          rw [ih (pre ++ [k])]; simp

/-- The Counter over a key stream is exactly: the keys in first-encountered
order, each paired with its number of occurrences in the stream. -/
theorem counterOf_eq (l : List String) :
    counterOf l = (firstOccs l).map (fun k => (k, l.count k)) := by
  have := foldl_bump_eq l []
  simpa [counterOf, firstOccs] using this

theorem mem_insertByCount {p x : String × Nat} {l : List (String × Nat)} :
    p ∈ insertByCount x l ↔ p = x ∨ p ∈ l := by
  induction l with
  | nil => simp [insertByCount]
  | cons y ys ih =>
    by_cases h : y.2 ≤ x.2
    · simp [insertByCount, if_pos h]
    · simp only [insertByCount, if_neg h, List.mem_cons, ih]
      tauto

theorem mem_sortByCountDesc {p : String × Nat} {l : List (String × Nat)} :
    p ∈ sortByCountDesc l ↔ p ∈ l := by
  induction l with
  | nil => simp [sortByCountDesc]
  | cons x xs ih => simp [sortByCountDesc, mem_insertByCount, ih]

theorem pairwise_insertByCount {x : String × Nat} {l : List (String × Nat)}
    (h : l.Pairwise (fun a b => b.2 ≤ a.2)) :
    (insertByCount x l).Pairwise (fun a b => b.2 ≤ a.2) := by
  induction l with
  | nil => simp [insertByCount]
  | cons y ys ih =>
    rcases List.pairwise_cons.mp h with ⟨hy, hys⟩
    show (if y.2 ≤ x.2 then x :: y :: ys else y :: insertByCount x ys).Pairwise
      (fun a b => b.2 ≤ a.2)
    by_cases hxy : y.2 ≤ x.2
    · rw [if_pos hxy]
      refine List.pairwise_cons.mpr ⟨?_, h⟩
      intro z hz
      rcases List.mem_cons.mp hz with rfl | hz
      · exact hxy
      · exact le_trans (hy z hz) hxy
    · rw [if_neg hxy]
      refine List.pairwise_cons.mpr ⟨?_, ih hys⟩
      intro z hz
      rcases mem_insertByCount.mp hz with rfl | hz
      · exact le_of_not_le hxy
      · exact hy z hz

theorem pairwise_sortByCountDesc (l : List (String × Nat)) :
    (sortByCountDesc l).Pairwise (fun a b => b.2 ≤ a.2) := by
  induction l with
  | nil => simp [sortByCountDesc]
  | cons x xs ih => exact pairwise_insertByCount ih

theorem filter_insertByCount (c : Nat) (x : String × Nat) (l : List (String × Nat)) :
    (insertByCount x l).filter (fun p => p.2 == c)
      = if x.2 = c then x :: l.filter (fun p => p.2 == c)
        else l.filter (fun p => p.2 == c) := by
  induction l with
  | nil =>
    show List.filter (fun p => p.2 == c) [x] = _
    by_cases hx : x.2 = c <;> simp [List.filter_cons, hx]
  | cons y ys ih =>
    show List.filter (fun p => p.2 == c)
        (if y.2 ≤ x.2 then x :: y :: ys else y :: insertByCount x ys) = _
    by_cases hxy : y.2 ≤ x.2
    · rw [if_pos hxy]
      by_cases hx : x.2 = c <;> simp [List.filter_cons, hx]
    · rw [if_neg hxy, List.filter_cons, ih]
      have hylt : x.2 < y.2 := lt_of_not_le hxy
      by_cases hx : x.2 = c
      · have hy : ¬ y.2 = c := by omega
        simp [List.filter_cons, hx, hy]
      · by_cases hy : y.2 = c <;> simp [List.filter_cons, hx, hy]

theorem filter_sortByCountDesc (c : Nat) (l : List (String × Nat)) :
    (sortByCountDesc l).filter (fun p => p.2 == c) = l.filter (fun p => p.2 == c) := by
  induction l with
  | nil => rfl
  | cons x xs ih =>
    rw [sortByCountDesc, filter_insertByCount, List.filter_cons]
    by_cases hx : x.2 = c <;> simp [hx, ih]

/-! ### Normal forms for the two hashtag reports -/

theorem foldl_bump_flatMap (f : String → List String) (ts : List String)
    (acc : List (String × Nat)) :
    ts.foldl (fun acc t => (f t).foldl bump acc) acc
      = List.foldl bump acc (ts.flatMap f) := by
  induction ts generalizing acc with
  | nil => rfl
  | cons t ts ih => simp [List.foldl_append, ih]

theorem get_top_hashtags_eq (limit : Nat) (texts : List String) :
    AnalyticsService.get_top_hashtags limit texts
      = mostCommon limit (counterOf (allLowerTags texts)) := by
  unfold AnalyticsService.get_top_hashtags
  by_cases h : texts.isEmpty
  · have : texts = [] := List.isEmpty_iff.mp h
    subst this
    simp [allLowerTags, counterOf, mostCommon, sortByCountDesc]
  · rw [if_neg h, counterOf, allLowerTags,
      foldl_bump_flatMap (fun t => (serviceTags t).map lowerStr) texts []]

theorem foldl_append_flatMap {α : Type} (f : String → List α) (ts : List String)
    (acc : List α) :
    ts.foldl (fun acc t => acc ++ f t) acc = acc ++ ts.flatMap f := by
  induction ts generalizing acc with
  | nil => simp
  | cons t ts ih => simp [ih]

theorem extract_hashtags_eq (tweets : List String) :
    analyse_hashtag.extract_hashtags tweets
      = tweets.flatMap (fun t => (findTagRuns t.data).map (fun r => String.mk r)) := by
  unfold analyse_hashtag.extract_hashtags
  rw [foldl_append_flatMap]
  simp

/-- What most_common over a Counter of a key stream yields: at most n entries,
each a stream key with its occurrence count, sorted by count descending, and
entries of any fixed count kept in first-encountered order (a sublist of the
first-occurrence ordering of the stream). -/
theorem mostCommon_counterOf_spec (n : Nat) (ks : List String) :
    (mostCommon n (counterOf ks)).length ≤ n ∧
    (∀ p ∈ mostCommon n (counterOf ks), p.1 ∈ ks ∧ p.2 = ks.count p.1) ∧
    (mostCommon n (counterOf ks)).Pairwise (fun a b => b.2 ≤ a.2) ∧
    (∀ c : Nat, (((mostCommon n (counterOf ks)).filter (fun p => p.2 == c)).map
        Prod.fst).Sublist (firstOccs ks)) := by
  rw [counterOf_eq]
  set m := (firstOccs ks).map (fun k => (k, ks.count k)) with hm
  refine ⟨?_, ?_, ?_, ?_⟩
  · rw [mostCommon, List.length_take]
    exact min_le_left _ _
  · intro p hp
    have hp2 : p ∈ sortByCountDesc m := (List.take_sublist _ _).subset hp
    have hp3 : p ∈ m := mem_sortByCountDesc.mp hp2
    rcases List.mem_map.mp hp3 with ⟨k, hk, rfl⟩
    exact ⟨mem_firstOccs.mp hk, rfl⟩
  · exact List.Pairwise.sublist (List.take_sublist _ _) (pairwise_sortByCountDesc m)
  · intro c
    have h1 : (((mostCommon n m).filter (fun p => p.2 == c)).map Prod.fst).Sublist
        (((sortByCountDesc m).filter (fun p => p.2 == c)).map Prod.fst) :=
      List.Sublist.map _ (List.Sublist.filter _ (List.take_sublist _ _))
    rw [filter_sortByCountDesc] at h1
    have h3 : ((m.filter (fun p => p.2 == c)).map Prod.fst)
        = (firstOccs ks).filter (fun k => ks.count k == c) := by
      rw [hm, List.filter_map, List.map_map]
      show ((firstOccs ks).filter
          ((fun p : String × Nat => p.2 == c) ∘ fun k => (k, ks.count k))).map
          (fun k => k) = _
      rw [List.map_id']
      rfl
    rw [h3] at h1
    exact h1.trans (List.filter_sublist _)

/-- C1 counterexample: with a single stored record whose text is "#ai #ai"
and limit 5, the report returns the entry ("#ai", 2), yet only 1 stored
record contains that hashtag.  The claimed count (number of records
containing the hashtag) is wrong: the code counts occurrences, so a hashtag
repeated inside one record is counted once per occurrence. -/
theorem C1_counterexample :
    AnalyticsService.get_top_hashtags 5 ["#ai #ai"] = [("#ai", 2)] ∧
    spec_recordsContainingHashtag "#ai" ["#ai #ai"] = 1 ∧ (2 : Nat) ≠ 1 := by
  refine ⟨by decide, by decide, by decide⟩

/-- C1 (amended): for every stored corpus and every limit, the
hashtag-frequency report returns at most limit entries; each entry is a
lowercased hashtag occurring in the stored texts and its count equals the
total number of occurrences of that hashtag across all stored texts (an
occurrence per regex match, so repeats inside one record all count); the
list is sorted by count descending; and entries of equal count are kept in
first-encountered order (their tags form a sublist of the first-occurrence
ordering of the extracted tag stream). -/
theorem C1_amended (limit : Nat) (texts : List String) :
    (AnalyticsService.get_top_hashtags limit texts).length ≤ limit ∧
    (∀ p ∈ AnalyticsService.get_top_hashtags limit texts,
        p.1 ∈ allLowerTags texts ∧ p.2 = (allLowerTags texts).count p.1) ∧
    (AnalyticsService.get_top_hashtags limit texts).Pairwise (fun a b => b.2 ≤ a.2) ∧
    (∀ c : Nat, (((AnalyticsService.get_top_hashtags limit texts).filter
        (fun p => p.2 == c)).map Prod.fst).Sublist (firstOccs (allLowerTags texts))) := by
  rw [get_top_hashtags_eq]
  exact mostCommon_counterOf_spec limit (allLowerTags texts)

/-- C10: the standalone utility behind GET /tweets/top-hashtags returns at
most n pairs; each pair is a token extracted by the capturing-group regex
(the match without its leading hash sign, original case kept — no lowercase
normalization) together with the total number of occurrences of exactly that
case-sensitive token over all input strings; the route calls the utility
with its default n = 10; and on the input "#AI #ai" the utility keeps "AI"
and "ai" distinct while the store-backed report merges them into "#ai". -/
theorem C10_standalone_utility (tweets : List String) (n : Nat) :
    (analyse_hashtag.top_hashtags tweets n).length ≤ n ∧
    (∀ p ∈ analyse_hashtag.top_hashtags tweets n,
        p.1 ∈ analyse_hashtag.extract_hashtags tweets ∧
        p.2 = (analyse_hashtag.extract_hashtags tweets).count p.1) ∧
    routes.get_top_hashtags_route tweets = analyse_hashtag.top_hashtags tweets 10 ∧
    analyse_hashtag.top_hashtags ["#AI #ai"] 10 = [("AI", 1), ("ai", 1)] ∧
    AnalyticsService.get_top_hashtags 10 ["#AI #ai"] = [("#ai", 2)] := by
  rcases mostCommon_counterOf_spec n (analyse_hashtag.extract_hashtags tweets) with
    ⟨h1, h2, _, _⟩
  exact ⟨h1, h2, rfl, by decide, by decide⟩

/-! ### Volume-by-hour lemmas -/

theorem foldl_bump_filter_map (vals : List DBVal) (acc : List (String × Nat)) :
    vals.foldl (fun acc v => if pyTruthy v then bump acc (hourKeyOf v) else acc) acc
      = List.foldl bump acc ((vals.filter pyTruthy).map hourKeyOf) := by
  induction vals generalizing acc with
  | nil => rfl
  | cons v vs ih =>
    rw [List.foldl_cons, List.filter_cons]
    by_cases h : pyTruthy v = true
    · rw [if_pos h, if_pos h, List.map_cons, List.foldl_cons, ih]
    · rw [if_neg h, if_neg h, ih]

theorem perm_insertByKey (x : String × Nat) (l : List (String × Nat)) :
    (insertByKey x l).Perm (x :: l) := by
  induction l with
  | nil => exact List.Perm.refl _
  | cons y ys ih =>
    show (if pairLe x y then x :: y :: ys else y :: insertByKey x ys).Perm (x :: y :: ys)
    by_cases h : pairLe x y
    · rw [if_pos h]
    · rw [if_neg h]
      exact (ih.cons y).trans (List.Perm.swap x y ys)

theorem perm_sortByKey (l : List (String × Nat)) : (sortByKey l).Perm l := by
  induction l with
  | nil => exact List.Perm.refl _
  | cons x xs ih => exact (perm_insertByKey x (sortByKey xs)).trans (ih.cons x)

theorem reportCount_perm (key : String) {r r2 : List (String × Nat)}
    (h : r.Perm r2) : reportCount key r = reportCount key r2 :=
  List.Perm.sum_eq ((h.filter _).map _)

theorem filter_eq_key (l : List String) (key : String) (hnd : l.Nodup) :
    l.filter (fun k => k == key) = if key ∈ l then [key] else [] := by
  induction l with
  | nil => simp
  | cons a l ih =>
    rw [List.filter_cons]
    rcases List.nodup_cons.mp hnd with ⟨hna, hnd2⟩
    by_cases h : a = key
    · have hkl : key ∉ l := h ▸ hna
      rw [if_pos (by simp [h]), ih hnd2, if_neg hkl,
        if_pos (by rw [← h]; exact List.mem_cons_self a l), h]
    · rw [if_neg (by simp [h]), ih hnd2]
      by_cases h2 : key ∈ l
      · rw [if_pos h2, if_pos (List.mem_cons_of_mem a h2)]
      · rw [if_neg h2, if_neg (by simp [Ne.symm h, h2])]

theorem reportCount_counterOf (stream : List String) (key : String) :
    reportCount key (counterOf stream) = stream.count key := by
  rw [reportCount, counterOf_eq, List.filter_map, List.map_map]
  show (((firstOccs stream).filter (fun k => k == key)).map
      (fun k => stream.count k)).sum = stream.count key
  rw [filter_eq_key _ _ (nodup_firstOccs stream)]
  by_cases h : key ∈ firstOccs stream
  · rw [if_pos h]
    simp
  · rw [if_neg h]
    have hz : stream.count key = 0 :=
      List.count_eq_zero.mpr (fun hc => h (mem_firstOccs.mpr hc))
    simp [hz]

theorem count_map_hourKey (vals : List DBVal) (key : String) :
    ((vals.filter pyTruthy).map hourKeyOf).count key
      = (vals.filter (fun v => pyTruthy v && (hourKeyOf v == key))).length := by
  induction vals with
  | nil => rfl
  | cons v vs ih =>
    rw [List.filter_cons, List.filter_cons]
    by_cases h : pyTruthy v = true
    · rw [if_pos h]
      by_cases h2 : (hourKeyOf v == key) = true
      · rw [List.map_cons, List.count_cons, if_pos h2, ih,
          if_pos (by rw [h, h2]; rfl), List.length_cons]
      · have h2f : (hourKeyOf v == key) = false := by
          rwa [Bool.not_eq_true] at h2
        rw [List.map_cons, List.count_cons, if_neg h2, ih,
          if_neg (by rw [h, h2f]; simp), Nat.add_zero]
    · have hf : pyTruthy v = false := by rwa [Bool.not_eq_true] at h
      rw [if_neg h, if_neg (by rw [hf]; simp), ih]

theorem get_volume_by_hour_eq (rows : List (Option DBVal)) :
    AnalyticsService.get_volume_by_hour rows
      = sortByKey (counterOf (((rows.filterMap id).filter pyTruthy).map hourKeyOf)) := by
  unfold AnalyticsService.get_volume_by_hour
  by_cases h : (rows.filterMap id).isEmpty
  · rw [if_pos h]
    have he : rows.filterMap id = [] := List.isEmpty_iff.mp h
    rw [he]
    rfl
  · rw [if_neg h, foldl_bump_filter_map]
    rfl

/-- C2 counterexample: a store whose only record has a null created_at
produces an empty volume report.  The null record is removed by the SQL
filter before bucketing, so it is dropped from the report — it is not
counted under the literal unknown key as the claim states. -/
theorem C2_counterexample :
    AnalyticsService.get_volume_by_hour [none] = [] ∧
    ¬ ("unknown", 1) ∈ AnalyticsService.get_volume_by_hour [none] := by
  refine ⟨by rfl, by decide⟩

/-- C2 (amended): for every stored corpus and every key, the count the
volume report carries for that key equals the number of non-null truthy
created_at values whose bucket is that key, where a datetime value is
bucketed under its zero-padded hour-granularity rendering, a string of at
least 13 characters under its first 13 characters, and any other non-null
value under the literal unknown key; records whose created_at is null are
filtered out before bucketing and leave the report unchanged — they are
omitted, not counted under unknown. -/
theorem C2_amended (rows : List (Option DBVal)) (key : String) :
    (reportCount key (AnalyticsService.get_volume_by_hour rows)
      = ((rows.filterMap id).filter
          (fun v => pyTruthy v && (hourKeyOf v == key))).length) ∧
    (AnalyticsService.get_volume_by_hour (none :: rows)
      = AnalyticsService.get_volume_by_hour rows) ∧
    (∀ p ∈ AnalyticsService.get_volume_by_hour rows,
      p.1 ∈ ((rows.filterMap id).filter pyTruthy).map hourKeyOf) ∧
    (∀ d : PDateTime, hourKeyOf (DBVal.dt d) = strftimeHour d) ∧
    (∀ s : String, 13 ≤ s.length → hourKeyOf (DBVal.str s) = s.take 13) ∧
    (∀ s : String, s.length < 13 → hourKeyOf (DBVal.str s) = "unknown") := by
  refine ⟨?_, ?_, ?_, fun d => rfl, ?_, ?_⟩
  · rw [get_volume_by_hour_eq,
      reportCount_perm key (perm_sortByKey _), reportCount_counterOf,
      count_map_hourKey]
  · unfold AnalyticsService.get_volume_by_hour
    rfl
  · intro p hp
    rw [get_volume_by_hour_eq] at hp
    have hp2 := (perm_sortByKey _).mem_iff.mp hp
    rw [counterOf_eq] at hp2
    rcases List.mem_map.mp hp2 with ⟨k, hk, rfl⟩
    exact mem_firstOccs.mp hk
  · intro s hlen
    show (if 13 ≤ s.length then s.take 13 else "unknown") = s.take 13
    rw [if_pos hlen]
  · intro s hlen
    show (if 13 ≤ s.length then s.take 13 else "unknown") = "unknown"
    rw [if_neg (by omega)]

/-! ### Ingestion lemmas -/

theorem save_noop_of_missing_id (t : TweetData) (db : List StoredTweet)
    (h : TweetService.usableId t = none) :
    TweetService.save_tweet_if_new t db = (none, db) := by
  unfold TweetService.save_tweet_if_new
  rw [h]

theorem save_noop_of_dup (t : TweetData) (db : List StoredTweet) (s : String)
    (hid : TweetService.usableId t = some s)
    (hmem : db.any (fun r => r.tweet_id == s) = true) :
    TweetService.save_tweet_if_new t db = (none, db) := by
  unfold TweetService.save_tweet_if_new
  rw [hid]
  exact if_pos hmem

theorem save_insert_of_new (t : TweetData) (db : List StoredTweet) (s : String)
    (hid : TweetService.usableId t = some s)
    (hmem : db.any (fun r => r.tweet_id == s) = false) :
    TweetService.save_tweet_if_new t db
      = (some (TweetService.mkStoredTweet t s),
         db ++ [TweetService.mkStoredTweet t s]) := by
  unfold TweetService.save_tweet_if_new
  rw [hid]
  exact if_neg (by rw [hmem]; simp)

theorem processBatch_cons_snd (r : TweetData) (rs : List TweetData)
    (db : List StoredTweet) :
    (TweetService.processBatch (r :: rs) db).2
      = (TweetService.processBatch rs (TweetService.save_tweet_if_new r db).2).2 := rfl

theorem processBatch_append_snd (l1 l2 : List TweetData) (db : List StoredTweet) :
    (TweetService.processBatch (l1 ++ l2) db).2
      = (TweetService.processBatch l2 (TweetService.processBatch l1 db).2).2 := by
  induction l1 generalizing db with
  | nil => rfl
  | cons r rs ih =>
    rw [List.cons_append, processBatch_cons_snd, ih, processBatch_cons_snd]

theorem nodup_save (t : TweetData) (db : List StoredTweet)
    (h : (db.map StoredTweet.tweet_id).Nodup) :
    (((TweetService.save_tweet_if_new t db).2).map StoredTweet.tweet_id).Nodup := by
  cases hid : TweetService.usableId t with
  | none => rw [save_noop_of_missing_id t db hid]; exact h
  | some s =>
    by_cases hmem : db.any (fun r => r.tweet_id == s) = true
    · rw [save_noop_of_dup t db s hid hmem]
      exact h
    · have hmem2 : db.any (fun r => r.tweet_id == s) = false := by
        rwa [Bool.not_eq_true] at hmem
      rw [save_insert_of_new t db s hid hmem2, List.map_append]
      rw [List.nodup_append]
      refine ⟨h, List.nodup_singleton _, ?_⟩
      intro x hx hx2
      have hxs : x = s := by
        rcases List.mem_map.mp hx2 with ⟨q, hq, hqx⟩
        rcases List.mem_singleton.mp hq with rfl
        exact hqx.symm
      rcases List.mem_map.mp hx with ⟨r, hr, hrs⟩
      have hany : db.any (fun q => q.tweet_id == s) = true :=
        List.any_eq_true.mpr ⟨r, hr, by rw [hrs, hxs]; exact beq_self_eq_true s⟩
      rw [hany] at hmem2
      cases hmem2

theorem nodup_processBatch (b : List TweetData) (db : List StoredTweet)
    (h : (db.map StoredTweet.tweet_id).Nodup) :
    (((TweetService.processBatch b db).2).map StoredTweet.tweet_id).Nodup := by
  induction b generalizing db with
  | nil => exact h
  | cons r rs ih =>
    rw [processBatch_cons_snd]
    exact ih _ (nodup_save r db h)

theorem nodup_processBatches (batches : List (List TweetData))
    (db : List StoredTweet) (h : (db.map StoredTweet.tweet_id).Nodup) :
    ((TweetService.processBatches batches db).map StoredTweet.tweet_id).Nodup := by
  induction batches generalizing db with
  | nil => exact h
  | cons b bs ih =>
    show ((TweetService.processBatches bs
      (TweetService.processBatch b db).2).map StoredTweet.tweet_id).Nodup
    exact ih _ (nodup_processBatch b db h)

theorem find_of_any_eq_false (db : List StoredTweet) (s : String)
    (h : db.any (fun r => r.tweet_id == s) = false) :
    db.find? (fun r => r.tweet_id == s) = none := by
  rw [List.find?_eq_none]
  intro x hx
  intro hpx
  have : db.any (fun r => r.tweet_id == s) = true := List.any_eq_true.mpr ⟨x, hx, hpx⟩
  rw [this] at h
  cases h

theorem find_of_any_eq_true (db : List StoredTweet) (s : String)
    (h : db.any (fun r => r.tweet_id == s) = true) :
    ∃ x, db.find? (fun r => r.tweet_id == s) = some x := by
  have h2 : (db.find? (fun r => r.tweet_id == s)).isSome := by
    rw [List.find?_isSome]
    rcases List.any_eq_true.mp h with ⟨x, hx, hpx⟩
    exact ⟨x, hx, hpx⟩
  exact Option.isSome_iff_exists.mp h2

/-- First write wins: the record stored under the key s after a batch is the
record already stored before the batch, or else the image of the first
record of the batch whose usable id is s. -/
theorem find_processBatch (b : List TweetData) (db : List StoredTweet) (s : String) :
    ((TweetService.processBatch b db).2).find? (fun r => r.tweet_id == s)
      = (db.find? (fun r => r.tweet_id == s)).or
          ((b.find? (fun u => TweetService.usableId u == some s)).map
            (fun u => TweetService.mkStoredTweet u s)) := by
  induction b generalizing db with
  | nil => simp [TweetService.processBatch]
  | cons r rs ih =>
    rw [processBatch_cons_snd]
    cases hid : TweetService.usableId r with
    | none =>
      rw [save_noop_of_missing_id r db hid, ih]
      rw [show ((r :: rs).find? (fun u => TweetService.usableId u == some s))
            = (rs.find? (fun u => TweetService.usableId u == some s)) from
          List.find?_cons_of_neg _ (by rw [hid]; simp)]
    | some s1 =>
      by_cases hs : s1 = s
      · subst hs
        rw [show ((r :: rs).find? (fun u => TweetService.usableId u == some s1))
              = some r from
            List.find?_cons_of_pos _ (by rw [hid]; exact beq_self_eq_true _)]
        by_cases hmem : db.any (fun x => x.tweet_id == s1) = true
        · rw [save_noop_of_dup r db s1 hid hmem, ih]
          rcases find_of_any_eq_true db s1 hmem with ⟨x, hx⟩
          rw [hx]
          rfl
        · have hmem2 : db.any (fun x => x.tweet_id == s1) = false := by
            rwa [Bool.not_eq_true] at hmem
          rw [save_insert_of_new r db s1 hid hmem2, ih, List.find?_append,
            find_of_any_eq_false db s1 hmem2]
          rw [show ([TweetService.mkStoredTweet r s1].find?
                (fun x => x.tweet_id == s1)) = some (TweetService.mkStoredTweet r s1) from
            List.find?_cons_of_pos _ (beq_self_eq_true _)]
          rfl
      · rw [show ((r :: rs).find? (fun u => TweetService.usableId u == some s))
              = (rs.find? (fun u => TweetService.usableId u == some s)) from
            List.find?_cons_of_neg _ (by rw [hid]; simp [hs])]
        by_cases hmem : db.any (fun x => x.tweet_id == s1) = true
        · rw [save_noop_of_dup r db s1 hid hmem, ih]
        · have hmem2 : db.any (fun x => x.tweet_id == s1) = false := by
            rwa [Bool.not_eq_true] at hmem
          rw [save_insert_of_new r db s1 hid hmem2, ih, List.find?_append]
          rw [show ([TweetService.mkStoredTweet r s1].find?
                (fun x => x.tweet_id == s)) = List.find? (fun x => x.tweet_id == s) [] from
            List.find?_cons_of_neg _ (by
              show ¬ (s1 == s) = true
              simp [hs])]
          rw [List.find?_nil, Option.or_none]

/-- C3: ingestion is idempotent per post_id.  From any sequence of batches
starting at the empty store, the stored tweet_ids are pairwise distinct (at
most one record per post_id); saving a record whose usable id is already
stored is a no-op on the store with nothing returned and no error surfaced
(the function is total); and over a store not yet holding the key, the row
that persists under a key after a batch is built from the first record of
the batch carrying that usable id — so with two same-id records in one
batch the persisting row holds the first one's text. -/
theorem C3_idempotent_first_write_wins
    (batches : List (List TweetData)) (t t1 : TweetData) (b : List TweetData)
    (db db2 : List StoredTweet) (s s2 : String)
    (h1 : TweetService.usableId t = some s)
    (h2 : db.any (fun r => r.tweet_id == s) = true)
    (h3 : db2.any (fun r => r.tweet_id == s2) = false)
    (h4 : b.find? (fun u => TweetService.usableId u == some s2) = some t1) :
    ((TweetService.processBatches batches []).map StoredTweet.tweet_id).Nodup ∧
    TweetService.save_tweet_if_new t db = (none, db) ∧
    ((TweetService.processBatch b db2).2.find? (fun r => r.tweet_id == s2)
        = some (TweetService.mkStoredTweet t1 s2)) ∧
    (TweetService.mkStoredTweet t1 s2).text = t1.text.getD "" := by
  refine ⟨nodup_processBatches batches [] (by simp),
    save_noop_of_dup t db s h1 h2, ?_, rfl⟩
  rw [find_processBatch, find_of_any_eq_false db2 s2 h3, h4, Option.none_or]
  rfl

/-- Witness for C3 at concrete inputs: a batch holding two records with id
42 and differing texts, and a store already holding id 7. -/
theorem C3_witness :
    (TweetService.usableId exT = some "7") ∧
    ([exRow].any (fun r => r.tweet_id == "7") = true) ∧
    (([] : List StoredTweet).any (fun r => r.tweet_id == "42") = false) ∧
    ([exA, exB].find? (fun u => TweetService.usableId u == some "42") = some exA) ∧
    (((TweetService.processBatches [[exA, exB]] []).map StoredTweet.tweet_id).Nodup ∧
     TweetService.save_tweet_if_new exT [exRow] = (none, [exRow]) ∧
     ((TweetService.processBatch [exA, exB] []).2.find? (fun r => r.tweet_id == "42")
        = some (TweetService.mkStoredTweet exA "42")) ∧
     (TweetService.mkStoredTweet exA "42").text = exA.text.getD "") :=
  ⟨by decide, by decide, by decide, by decide,
   C3_idempotent_first_write_wins [[exA, exB]] exT exA [exA, exB] [exRow] [] "7" "42"
     (by decide) (by decide) (by decide) (by decide)⟩

/-- C4 counterexample: a record whose created_at is unparsable is NOT
skipped.  From the empty store it is persisted, with a null created_at, so
the store grows; the claim that each per-record anomaly leads to the record
being skipped fails for the unparsable-date anomaly. -/
theorem C4_counterexample :
    TweetService.save_tweet_if_new exDate []
      = (some { tweet_id := "9", author_id := none, text := "z", created_at := none },
         [{ tweet_id := "9", author_id := none, text := "z", created_at := none }]) ∧
    ([({ tweet_id := "9", author_id := none, text := "z", created_at := none } :
        StoredTweet)]) ≠ [] := by
  refine ⟨by decide, by decide⟩

/-- C4 (amended): during collect every per-record anomaly is absorbed
locally and the loop continues with the remaining records — a per-record
anomaly never aborts the batch.  A record with no usable identifier is
skipped and leaves the store unchanged; a record with an unparsable
created_at is NOT skipped: it is persisted with a null created_at; a record
whose id is already stored (the sequential face of a losing duplicate race,
whose handler likewise skips) is skipped leaving the store unchanged; and
whatever one record does, processing of the records after it proceeds
exactly as a fresh loop over them on the store it left behind. -/
theorem C4_amended (pre post : List TweetData) (t0 t1 t2 : TweetData)
    (db db1 db2 : List StoredTweet) (s s2 : String)
    (h0 : TweetService.usableId t0 = none)
    (h1 : TweetService.usableId t1 = some s)
    (hp : TweetService.parse_tweet_date t1.created_at = none)
    (hn : db1.any (fun r => r.tweet_id == s) = false)
    (h2 : TweetService.usableId t2 = some s2)
    (hm : db2.any (fun r => r.tweet_id == s2) = true) :
    TweetService.save_tweet_if_new t0 db = (none, db) ∧
    (TweetService.save_tweet_if_new t1 db1
        = (some (TweetService.mkStoredTweet t1 s),
           db1 ++ [TweetService.mkStoredTweet t1 s]) ∧
      (TweetService.mkStoredTweet t1 s).created_at = none) ∧
    TweetService.save_tweet_if_new t2 db2 = (none, db2) ∧
    (TweetService.processBatch (pre ++ t0 :: post) db).2
      = (TweetService.processBatch post
          (TweetService.save_tweet_if_new t0
            (TweetService.processBatch pre db).2).2).2 := by
  refine ⟨save_noop_of_missing_id t0 db h0,
    ⟨save_insert_of_new t1 db1 s h1 hn, ?_⟩,
    save_noop_of_dup t2 db2 s2 h2 hm, ?_⟩
  · show TweetService.parse_tweet_date t1.created_at = none
    exact hp
  · rw [processBatch_append_snd, processBatch_cons_snd]

/-- Witness for C4 at concrete inputs: a batch with an id-less record in
the middle, an unparsable-date record, and a duplicate of a stored row. -/
theorem C4_witness :
    (TweetService.usableId exBad = none) ∧
    (TweetService.usableId exDate = some "9") ∧
    (TweetService.parse_tweet_date exDate.created_at = none) ∧
    (([] : List StoredTweet).any (fun r => r.tweet_id == "9") = false) ∧
    (TweetService.usableId exT = some "7") ∧
    ([exRow].any (fun r => r.tweet_id == "7") = true) ∧
    (TweetService.save_tweet_if_new exBad [] = (none, []) ∧
      (TweetService.save_tweet_if_new exDate []
          = (some (TweetService.mkStoredTweet exDate "9"),
             [] ++ [TweetService.mkStoredTweet exDate "9"]) ∧
        (TweetService.mkStoredTweet exDate "9").created_at = none) ∧
      TweetService.save_tweet_if_new exT [exRow] = (none, [exRow]) ∧
      (TweetService.processBatch ([exA] ++ exBad :: [exB]) []).2
        = (TweetService.processBatch [exB]
            (TweetService.save_tweet_if_new exBad
              (TweetService.processBatch [exA] []).2).2).2) :=
  ⟨by decide, by decide, by decide, by decide, by decide, by decide,
   C4_amended [exA] [exB] exBad exDate exT [] [] [exRow] "9" "7"
     (by decide) (by decide) (by decide) (by decide) (by decide) (by decide)⟩

/-- C5: when the upstream client fails, collect re-raises the upstream
error kind unchanged — it is not wrapped into the storage kind or any other
kind — and at the HTTP boundary the upstream kind maps to 502 while the
storage kind (and anything else) maps to 500, two distinct statuses. -/
theorem C5_upstream_error_propagation (query : String) (maxResults : Int)
    (client : Option TwitterClient.Client) (db : List StoredTweet) (m em : String)
    (hq : query.data.all Char.isWhitespace = false)
    (hm : 0 < maxResults) (hc : client.isNone = false) :
    TweetService.collect_tweets query maxResults client (.error (.upstream m)) db
        = (.error (.upstream m), db) ∧
    routes.collectStatusOf (.upstream m) = 502 ∧
    routes.collectStatusOf (.storage em) = 500 ∧
    routes.collectStatusOf (.badInput em) = 500 ∧ (502 : Nat) ≠ 500 := by
  refine ⟨?_, rfl, rfl, rfl, by decide⟩
  unfold TweetService.collect_tweets
  rw [if_neg (by rw [hq]; simp), if_neg (by omega), if_neg (by rw [hc]; simp)]

/-- Witness for C5 at concrete inputs. -/
theorem C5_witness :
    ("q".data.all Char.isWhitespace = false) ∧ ((0 : Int) < 10) ∧
    ((some { bearer := "t" } : Option TwitterClient.Client).isNone = false) ∧
    (TweetService.collect_tweets "q" 10 (some { bearer := "t" })
        (.error (.upstream "boom")) [] = (.error (.upstream "boom"), []) ∧
      routes.collectStatusOf (.upstream "boom") = 502 ∧
      routes.collectStatusOf (.storage "boom") = 500 ∧
      routes.collectStatusOf (.badInput "boom") = 500 ∧ (502 : Nat) ≠ 500) :=
  ⟨by decide, by decide, by decide,
   C5_upstream_error_propagation "q" 10 (some { bearer := "t" }) [] "boom" "boom"
     (by decide) (by decide) (by decide)⟩

/-- C6: the max_results value actually sent upstream is the input clamped
into [10, 100]: below 10 it becomes 10, above 100 it becomes 100, in range
it passes through; the parameter construction is total, so no input is
rejected. -/
theorem C6_clamp (query : String) (m : Int) :
    ((TwitterClient.searchRecentParams query m).max_results
        = if m < 10 then 10 else if 100 < m then 100 else m) ∧
    10 ≤ (TwitterClient.searchRecentParams query m).max_results ∧
    (TwitterClient.searchRecentParams query m).max_results ≤ 100 := by
  refine ⟨?_, ?_, ?_⟩
  · show max 10 (min 100 m) = _
    rcases lt_or_le m 10 with h1 | h1
    · rw [if_pos h1, min_eq_right (by omega : m ≤ (100 : Int)),
        max_eq_left (by omega : m ≤ (10 : Int))]
    · rw [if_neg (by omega)]
      rcases lt_or_le 100 m with h2 | h2
      · rw [if_pos h2, min_eq_left (by omega : (100 : Int) ≤ m),
          max_eq_right (by omega : (10 : Int) ≤ (100 : Int))]
      · rw [if_neg (by omega), min_eq_right h2,
          max_eq_right h1]
  · show 10 ≤ max 10 (min 100 m)
    exact le_max_left _ _
  · show max 10 (min 100 m) ≤ 100
    exact max_le (by omega) (min_le_left _ _)

/-- C7: a blank or whitespace-only query, or a non-positive max_results,
makes collect fail with the bad-input kind; the outcome holds for every
possible upstream fetch result and leaves the store untouched, so the
failure happens before any network call or store access. -/
theorem C7_fail_fast (query : String) (maxResults : Int)
    (client : Option TwitterClient.Client)
    (fetchResult : Except AppError (List TweetData)) (db : List StoredTweet)
    (h : query.data.all Char.isWhitespace = true ∨
         (query.data.all Char.isWhitespace = false ∧ maxResults ≤ 0)) :
    (∃ msg, (TweetService.collect_tweets query maxResults client fetchResult db).1
        = .error (.badInput msg)) ∧
    (TweetService.collect_tweets query maxResults client fetchResult db).2 = db := by
  unfold TweetService.collect_tweets
  rcases h with h | ⟨h1, h2⟩
  · rw [if_pos h]
    exact ⟨⟨_, rfl⟩, rfl⟩
  · rw [if_neg (by rw [h1]; simp), if_pos h2]
    exact ⟨⟨_, rfl⟩, rfl⟩

/-- Witness for C7 at concrete inputs: a whitespace-only query. -/
theorem C7_witness :
    ("  ".data.all Char.isWhitespace = true ∨
      ("  ".data.all Char.isWhitespace = false ∧ (10 : Int) ≤ 0)) ∧
    ((∃ msg, (TweetService.collect_tweets "  " 10 none (.ok []) []).1
        = .error (.badInput msg)) ∧
      (TweetService.collect_tweets "  " 10 none (.ok []) []).2 = []) :=
  ⟨Or.inl (by decide),
   C7_fail_fast "  " 10 none (.ok []) [] (Or.inl (by decide))⟩

/-- C8 counterexample: with no bearer credential configured, the
application-level client is None (construction is guarded, so no
configuration error is raised at startup), and a collect call then fails at
call time with a TwitterAPIError — the missing-credential condition IS
surfaced per-request, contradicting the claim that it never is. -/
theorem C8_counterexample :
    TwitterClient.globalClient none = none ∧
    (TweetService.collect_tweets "q" 10 (TwitterClient.globalClient none)
        (.ok []) []).1
      = .error (.upstream "Twitter client not configured. Check BEARER_TOKEN.") := by
  exact ⟨rfl, rfl⟩

/-- C8 (amended): constructing the client with a falsy credential does
raise the fatal configuration error at construction time; however the
application guards construction, so with no credential the global client is
None and each collect call surfaces the missing credential per-request as a
TwitterAPIError; with a truthy credential construction succeeds and the
global client is that instance. -/
theorem C8_amended (b0 : Option String) (query : String) (maxResults : Int)
    (fetchResult : Except AppError (List TweetData)) (db : List StoredTweet)
    (hb : TwitterClient.tokenSet b0 = false)
    (hq : query.data.all Char.isWhitespace = false)
    (hm : 0 < maxResults) :
    TwitterClient.init b0
      = .error (.config "BEARER_TOKEN environment variable is required") ∧
    TwitterClient.globalClient b0 = none ∧
    ((TweetService.collect_tweets query maxResults (TwitterClient.globalClient b0)
        fetchResult db).1
      = .error (.upstream "Twitter client not configured. Check BEARER_TOKEN.")) ∧
    (∀ tok : String, tok.isEmpty = false →
      TwitterClient.init (some tok) = .ok { bearer := tok } ∧
      TwitterClient.globalClient (some tok) = some { bearer := tok }) := by
  have hg : TwitterClient.globalClient b0 = none := by
    unfold TwitterClient.globalClient
    rw [if_neg (by rw [hb]; simp)]
  refine ⟨?_, hg, ?_, ?_⟩
  · unfold TwitterClient.init
    rw [if_neg (by rw [hb]; simp)]
  · rw [hg]
    unfold TweetService.collect_tweets
    rw [if_neg (by rw [hq]; simp), if_neg (by omega),
      if_pos (show (none : Option TwitterClient.Client).isNone = true from rfl)]
  · intro tok htok
    have ht : TwitterClient.tokenSet (some tok) = true := by
      show (!tok.isEmpty) = true
      rw [htok]
      rfl
    have hinit : TwitterClient.init (some tok) = .ok { bearer := tok } := by
      unfold TwitterClient.init
      rw [if_pos ht]
      rfl
    refine ⟨hinit, ?_⟩
    unfold TwitterClient.globalClient
    rw [if_pos ht, hinit]

/-- Witness for C8 at concrete inputs: the empty-string credential (falsy,
as with an unset environment variable). -/
theorem C8_witness :
    (TwitterClient.tokenSet (some "") = false) ∧
    ("q".data.all Char.isWhitespace = false) ∧ ((0 : Int) < 10) ∧
    (TwitterClient.init (some "")
        = .error (.config "BEARER_TOKEN environment variable is required") ∧
      TwitterClient.globalClient (some "") = none ∧
      ((TweetService.collect_tweets "q" 10 (TwitterClient.globalClient (some ""))
          (.ok []) []).1
        = .error (.upstream "Twitter client not configured. Check BEARER_TOKEN.")) ∧
      (∀ tok : String, tok.isEmpty = false →
        TwitterClient.init (some tok) = .ok { bearer := tok } ∧
        TwitterClient.globalClient (some tok) = some { bearer := tok })) :=
  ⟨by decide, by decide, by decide,
   C8_amended (some "") "q" 10 (.ok []) [] (by decide) (by decide) (by decide)⟩

/-! ### Timestamp parser lemmas -/

theorem digitVal_ofNat (e : Nat) (h : e < 10) :
    digitVal (Char.ofNat (48 + e)) = some e := by
  interval_cases e <;> decide

theorem digitVal_digitCh (d : Nat) : digitVal (digitCh d) = some (d % 10) :=
  digitVal_ofNat (d % 10) (Nat.mod_lt _ (by omega))

theorem read2_digits (n : Nat) (h : n ≤ 99) (cs : List Char) :
    read2 (digitCh (n / 10) :: digitCh n :: cs) = some (n, cs) := by
  simp only [read2, digitVal_digitCh, Option.some_bind]
  show some (n / 10 % 10 * 10 + n % 10, cs) = some (n, cs)
  have h2 : n / 10 % 10 * 10 + n % 10 = n := by omega
  rw [h2]

theorem read2_pad2 (n : Nat) (h : n ≤ 99) (cs : List Char) :
    read2 ((pad2 n).data ++ cs) = some (n, cs) :=
  read2_digits n h cs

theorem read4_digits (y : Nat) (h : y ≤ 9999) (cs : List Char) :
    read4 (digitCh (y / 1000) :: digitCh (y / 100) :: digitCh (y / 10)
        :: digitCh y :: cs) = some (y, cs) := by
  simp only [read4, digitVal_digitCh, Option.some_bind]
  show some (y / 1000 % 10 * 1000 + y / 100 % 10 * 100 + y / 10 % 10 * 10 + y % 10, cs)
      = some (y, cs)
  have hv : y / 1000 % 10 * 1000 + y / 100 % 10 * 100 + y / 10 % 10 * 10 + y % 10 = y := by
    omega
  rw [hv]

theorem expectCh_self (c : Char) (rest : List Char) :
    expectCh c (c :: rest) = some rest := by
  show (if c = c then some rest else none) = some rest
  rw [if_pos rfl]

theorem daysInMonth_le (y m : Nat) : daysInMonth y m ≤ 31 := by
  unfold daysInMonth
  split_ifs <;> omega

theorem parseTzEnd_plus (th tm : Nat) (h1 : th ≤ 23) (h2 : tm ≤ 59) :
    parseTzEnd ('+' :: ((pad2 th).data ++ ':' :: (pad2 tm).data))
      = some (some ((th * 60 + tm : Nat) : Int)) := by
  have e1 : read2 ((pad2 th).data ++ ':' :: (pad2 tm).data)
      = some (th, ':' :: (pad2 tm).data) := read2_pad2 th (by omega) _
  have e2 : read2 ((pad2 tm).data) = some (tm, []) := by
    have h3 := read2_pad2 tm (by omega) []
    rwa [List.append_nil] at h3
  unfold parseTzEnd
  simp only [e1, e2]
  rw [if_pos (by decide)]
  rw [if_pos (show th * 60 + tm < 1440 by omega)]
  simp

theorem parseFracTz_plus (th tm : Nat) (h1 : th ≤ 23) (h2 : tm ≤ 59) :
    parseFracTz ('+' :: ((pad2 th).data ++ ':' :: (pad2 tm).data))
      = some (0, some ((th * 60 + tm : Nat) : Int)) := by
  have hred : parseFracTz ('+' :: ((pad2 th).data ++ ':' :: (pad2 tm).data))
      = (parseTzEnd ('+' :: ((pad2 th).data ++ ':' :: (pad2 tm).data))).bind
          (fun tz => some (0, tz)) := rfl
  rw [hred, parseTzEnd_plus th tm h1 h2]
  rfl

theorem parseTimePart_fmt (h mi s : Nat) (tzcs : List Char) (tzv : Option Int)
    (hh : h ≤ 99) (hmi : mi ≤ 99) (hs : s ≤ 99)
    (hfrac : parseFracTz tzcs = some (0, tzv)) :
    parseTimePart (digitCh (h / 10) :: digitCh h :: ':' :: digitCh (mi / 10)
        :: digitCh mi :: ':' :: digitCh (s / 10) :: digitCh s :: tzcs)
      = some (h, mi, s, 0, tzv) := by
  unfold parseTimePart
  simp only [read2_digits h hh, read2_digits mi hmi, read2_digits s hs, hfrac]

/-- Round trip of the fromisoformat model over a rendered date-time followed
by any suffix the fraction-or-offset parser accepts with no fraction. -/
theorem fromisoChars_fmt (y mo dy h mi s : Nat) (tzcs : List Char) (tzv : Option Int)
    (hy1 : 1 ≤ y) (hy2 : y ≤ 9999) (hmo1 : 1 ≤ mo) (hmo2 : mo ≤ 12)
    (hdy1 : 1 ≤ dy) (hdy2 : dy ≤ daysInMonth y mo)
    (hh : h ≤ 23) (hmi : mi ≤ 59) (hs : s ≤ 59)
    (hfrac : parseFracTz tzcs = some (0, tzv)) :
    fromisoChars ((isoFmt y mo dy h mi s).data ++ tzcs)
      = some ⟨y, mo, dy, h, mi, s, 0, tzv⟩ := by
  have hdata : (isoFmt y mo dy h mi s).data ++ tzcs
      = digitCh (y / 1000) :: digitCh (y / 100) :: digitCh (y / 10) :: digitCh y
        :: '-' :: digitCh (mo / 10) :: digitCh mo :: '-' :: digitCh (dy / 10)
        :: digitCh dy :: 'T' :: digitCh (h / 10) :: digitCh h :: ':'
        :: digitCh (mi / 10) :: digitCh mi :: ':' :: digitCh (s / 10)
        :: digitCh s :: tzcs := rfl
  rw [hdata]
  unfold fromisoChars
  simp only [read4_digits y hy2, expectCh_self, read2_digits mo (by omega : mo ≤ 99),
    read2_digits dy (by have := daysInMonth_le y mo; omega : dy ≤ 99),
    parseTimePart_fmt h mi s tzcs tzv (by omega) (by omega) (by omega) hfrac]
  rw [if_pos ⟨hy1, hy2, hmo1, hmo2, hdy1, hdy2, hh, hmi, hs⟩]

theorem digitCh_toNat_le (d : Nat) : (digitCh d).toNat ≤ 57 := by
  have h : d % 10 < 10 := Nat.mod_lt _ (by omega)
  unfold digitCh
  generalize d % 10 = e at h
  interval_cases e <;> decide

theorem ne_Z_digitCh (d : Nat) : 'Z' ≠ digitCh d := by
  intro hc
  have h2 := digitCh_toNat_le d
  rw [← hc] at h2
  exact absurd h2 (by decide)

theorem z_not_mem_isoFmt (y mo dy h mi s : Nat) :
    ¬ 'Z' ∈ (isoFmt y mo dy h mi s).data := by
  intro hmem
  rw [show (isoFmt y mo dy h mi s).data
      = digitCh (y / 1000) :: digitCh (y / 100) :: digitCh (y / 10) :: digitCh y
        :: '-' :: digitCh (mo / 10) :: digitCh mo :: '-' :: digitCh (dy / 10)
        :: digitCh dy :: 'T' :: digitCh (h / 10) :: digitCh h :: ':'
        :: digitCh (mi / 10) :: digitCh mi :: ':' :: digitCh (s / 10)
        :: digitCh s :: [] from rfl] at hmem
  simp only [List.mem_cons, List.not_mem_nil, or_false] at hmem
  rcases hmem with hc|hc|hc|hc|hc|hc|hc|hc|hc|hc|hc|hc|hc|hc|hc|hc|hc|hc|hc <;>
    first
      | exact ne_Z_digitCh _ hc
      | exact absurd hc (by decide)

theorem replaceZ_no_z (l : List Char) (h : ¬ 'Z' ∈ l) : replaceZ l = l := by
  induction l with
  | nil => rfl
  | cons c cs ih =>
    have hc : ¬ c = 'Z' := fun hh => h (hh ▸ List.mem_cons_self c cs)
    unfold replaceZ
    rw [List.flatMap_cons, if_neg hc]
    have ih2 := ih (fun hm => h (List.mem_cons_of_mem c hm))
    unfold replaceZ at ih2
    rw [ih2]
    rfl

/-- The ingestion parser on a rendered date-time with the trailing UTC
marker: accepted, producing the datetime at offset zero. -/
theorem parse_tweet_date_z (y mo dy h mi s : Nat)
    (hy1 : 1 ≤ y) (hy2 : y ≤ 9999) (hmo1 : 1 ≤ mo) (hmo2 : mo ≤ 12)
    (hdy1 : 1 ≤ dy) (hdy2 : dy ≤ daysInMonth y mo)
    (hh : h ≤ 23) (hmi : mi ≤ 59) (hs : s ≤ 59) :
    TweetService.parse_tweet_date (some (isoFmt y mo dy h mi s ++ "Z"))
      = some ⟨y, mo, dy, h, mi, s, 0, some 0⟩ := by
  have hdata : (isoFmt y mo dy h mi s ++ "Z").data
      = (isoFmt y mo dy h mi s).data ++ ['Z'] := rfl
  simp only [TweetService.parse_tweet_date]
  rw [hdata]
  rw [if_neg (by simp)]
  rw [if_pos (List.getLast?_concat _)]
  rw [show replaceZ ((isoFmt y mo dy h mi s).data ++ ['Z'])
      = replaceZ ((isoFmt y mo dy h mi s).data) ++ replaceZ ['Z'] from by
    unfold replaceZ
    rw [List.flatMap_append]]
  rw [replaceZ_no_z _ (z_not_mem_isoFmt y mo dy h mi s)]
  rw [show replaceZ ['Z'] = ['+', '0', '0', ':', '0', '0'] from rfl]
  rw [fromisoChars_fmt y mo dy h mi s ['+', '0', '0', ':', '0', '0'] (some 0)
    hy1 hy2 hmo1 hmo2 hdy1 hdy2 hh hmi hs (by decide)]

/-- The ingestion parser on a rendered date-time with an explicit positive
offset: accepted, producing the datetime at that offset. -/
theorem parse_tweet_date_offset (y mo dy h mi s th tm : Nat)
    (hy1 : 1 ≤ y) (hy2 : y ≤ 9999) (hmo1 : 1 ≤ mo) (hmo2 : mo ≤ 12)
    (hdy1 : 1 ≤ dy) (hdy2 : dy ≤ daysInMonth y mo)
    (hh : h ≤ 23) (hmi : mi ≤ 59) (hs : s ≤ 59)
    (hth : th ≤ 23) (htm : tm ≤ 59) :
    TweetService.parse_tweet_date
        (some (isoFmt y mo dy h mi s ++ "+" ++ pad2 th ++ ":" ++ pad2 tm))
      = some ⟨y, mo, dy, h, mi, s, 0, some ((th * 60 + tm : Nat) : Int)⟩ := by
  have hplus : ("+" : String).data = ['+'] := rfl
  have hcolon : (":" : String).data = [':'] := rfl
  have hdata : (isoFmt y mo dy h mi s ++ "+" ++ pad2 th ++ ":" ++ pad2 tm).data
      = (isoFmt y mo dy h mi s).data
          ++ '+' :: ((pad2 th).data ++ ':' :: (pad2 tm).data) := by
    simp [String.data_append, hplus, hcolon]
  simp only [TweetService.parse_tweet_date]
  rw [hdata]
  rw [if_neg (by simp)]
  have hlast : ((isoFmt y mo dy h mi s).data
        ++ '+' :: ((pad2 th).data ++ ':' :: (pad2 tm).data)).getLast?
      = some (digitCh tm) := by
    rw [show (isoFmt y mo dy h mi s).data
          ++ '+' :: ((pad2 th).data ++ ':' :: (pad2 tm).data)
        = ((isoFmt y mo dy h mi s).data ++ '+' :: (pad2 th).data
            ++ [':', digitCh (tm / 10)]) ++ [digitCh tm] from by
      have hpad : (pad2 tm).data = [digitCh (tm / 10), digitCh tm] := rfl
      simp [List.append_assoc, hpad]]
    exact List.getLast?_concat _
  rw [if_neg (by
    rw [hlast]
    intro hc
    exact ne_Z_digitCh tm (Option.some.inj hc).symm)]
  rw [if_pos (by
    show (((isoFmt y mo dy h mi s).data
        ++ '+' :: ((pad2 th).data ++ ':' :: (pad2 tm).data)).contains '+') = true
    exact List.elem_eq_true_of_mem
      (List.mem_append_right _ (List.mem_cons_self _ _)))]
  rw [fromisoChars_fmt y mo dy h mi s
    ('+' :: ((pad2 th).data ++ ':' :: (pad2 tm).data))
    (some ((th * 60 + tm : Nat) : Int))
    hy1 hy2 hmo1 hmo2 hdy1 hdy2 hh hmi hs (parseFracTz_plus th tm hth htm)]

/-- C9 counterexample: a well-formed timestamp with an explicit NEGATIVE
offset is mangled by the dispatch (it contains no plus sign, so the
fallback appends the zero offset, making the string unparsable) and yields
null, even though fromisoformat itself accepts the original string.  The
claim that explicit-offset timestamps produce the corresponding datetime
fails for negative offsets. -/
theorem C9_counterexample :
    TweetService.parse_tweet_date (some "2021-01-01T00:00:00-05:00") = none ∧
    fromisoformat "2021-01-01T00:00:00-05:00"
      = some ⟨2021, 1, 1, 0, 0, 0, 0, some (-300)⟩ := by
  refine ⟨by decide, by decide⟩

/-- C9 (amended): the ingestion timestamp parser accepts a timestamp with a
trailing UTC marker and one with an explicit POSITIVE offset (one containing
a plus sign), producing the corresponding datetime; an explicit negative
offset falls through to the fallback branch and yields null; absent or
unparsable input yields null; and a record whose created_at fails to parse
is still persisted, with a null created_at — a parse failure is never fatal
to the record or the batch. -/
theorem C9_amended (y mo dy h mi s th tm : Nat) (t : TweetData)
    (db : List StoredTweet) (sid : String)
    (hy1 : 1 ≤ y) (hy2 : y ≤ 9999) (hmo1 : 1 ≤ mo) (hmo2 : mo ≤ 12)
    (hdy1 : 1 ≤ dy) (hdy2 : dy ≤ daysInMonth y mo)
    (hh : h ≤ 23) (hmi : mi ≤ 59) (hs : s ≤ 59)
    (hth : th ≤ 23) (htm : tm ≤ 59)
    (hid : TweetService.usableId t = some sid)
    (hp : TweetService.parse_tweet_date t.created_at = none)
    (hn : db.any (fun r => r.tweet_id == sid) = false) :
    (TweetService.parse_tweet_date (some (isoFmt y mo dy h mi s ++ "Z"))
        = some ⟨y, mo, dy, h, mi, s, 0, some 0⟩) ∧
    (TweetService.parse_tweet_date
        (some (isoFmt y mo dy h mi s ++ "+" ++ pad2 th ++ ":" ++ pad2 tm))
        = some ⟨y, mo, dy, h, mi, s, 0, some ((th * 60 + tm : Nat) : Int)⟩) ∧
    TweetService.parse_tweet_date none = none ∧
    TweetService.parse_tweet_date (some "not-a-date") = none ∧
    TweetService.parse_tweet_date (some "2021-01-01T00:00:00-05:00") = none ∧
    (TweetService.save_tweet_if_new t db
        = (some (TweetService.mkStoredTweet t sid),
           db ++ [TweetService.mkStoredTweet t sid]) ∧
      (TweetService.mkStoredTweet t sid).created_at = none) := by
  refine ⟨parse_tweet_date_z y mo dy h mi s hy1 hy2 hmo1 hmo2 hdy1 hdy2 hh hmi hs,
    parse_tweet_date_offset y mo dy h mi s th tm
      hy1 hy2 hmo1 hmo2 hdy1 hdy2 hh hmi hs hth htm,
    rfl, by decide, by decide,
    save_insert_of_new t db sid hid hn, ?_⟩
  show TweetService.parse_tweet_date t.created_at = none
  exact hp

/-- Witness for C9 at concrete inputs: the timestamp 2021-02-28T23:59:59
with the UTC marker and with the offset +05:30, and the unparsable-date
record exDate. -/
theorem C9_witness :
    (1 ≤ 2021 ∧ 2021 ≤ 9999 ∧ 1 ≤ 2 ∧ 2 ≤ 12 ∧ 1 ≤ 28 ∧
      28 ≤ daysInMonth 2021 2 ∧ 23 ≤ 23 ∧ 59 ≤ 59 ∧ 59 ≤ 59 ∧ 5 ≤ 23 ∧ 30 ≤ 59) ∧
    (TweetService.usableId exDate = some "9") ∧
    (TweetService.parse_tweet_date exDate.created_at = none) ∧
    (([] : List StoredTweet).any (fun r => r.tweet_id == "9") = false) ∧
    ((TweetService.parse_tweet_date (some (isoFmt 2021 2 28 23 59 59 ++ "Z"))
        = some ⟨2021, 2, 28, 23, 59, 59, 0, some 0⟩) ∧
      (TweetService.parse_tweet_date
          (some (isoFmt 2021 2 28 23 59 59 ++ "+" ++ pad2 5 ++ ":" ++ pad2 30))
        = some ⟨2021, 2, 28, 23, 59, 59, 0, some ((5 * 60 + 30 : Nat) : Int)⟩) ∧
      TweetService.parse_tweet_date none = none ∧
      TweetService.parse_tweet_date (some "not-a-date") = none ∧
      TweetService.parse_tweet_date (some "2021-01-01T00:00:00-05:00") = none ∧
      (TweetService.save_tweet_if_new exDate []
          = (some (TweetService.mkStoredTweet exDate "9"),
             [] ++ [TweetService.mkStoredTweet exDate "9"]) ∧
        (TweetService.mkStoredTweet exDate "9").created_at = none)) :=
  ⟨by decide,
   by decide, by decide, by decide,
   C9_amended 2021 2 28 23 59 59 5 30 exDate [] "9"
     (by decide) (by decide) (by decide) (by decide) (by decide) (by decide)
     (by decide) (by decide) (by decide) (by decide) (by decide)
     (by decide) (by decide) (by decide)⟩

end Trends
